import Mathlib

/-!
Shallow embedding of src/src/cppvector.h: the dynamic-array container
Vector<tipodato> of this repository, together with proofs about its
capacity policy, bounds checking, invariants and derived algorithms.

The canonical language era is the newest one (the C++17/C++20 blocks of the
header), as the specification prescribes.

Modelling conventions:
* The container state is the triple of private members (cppvector.h lines
  210-214): the live elements datos_[0, tamano_) are kept as the Lean list
  `elems` (so `tamano` is its length, which every loop of the source keeps
  in sync by constructing/destroying at the ends), `capacidad` is the
  reserved slot count, and `isNull` records whether datos_ is nullptr.
  Both `operator new[]` and `std::allocator::allocate` return a non-null
  pointer even for a zero-byte request, so every allocation sets
  `isNull := false`.
* Member functions that throw std::out_of_range return `Except VecErr _`.
* std::sort over [begin, end) is modelled by `List.insertionSort (· ≤ ·)`:
  a non-decreasing permutation of the input, which is the full observable
  contract of std::sort used by any claim here.
* Iterators are their offsets from begin().
-/

namespace CppVector

/-- The one error class the container throws: std::out_of_range. -/
inductive VecErr where
  | outOfRange
deriving DecidableEq

/-- Container state: the private members of Vector (cppvector.h lines
210-214), with the live prefix of the storage kept as a list. -/
structure Vec (α : Type) where
  elems : List α
  capacidad : Nat
  isNull : Bool
deriving DecidableEq

namespace Vec

variable {α : Type}

/-- tamano_: the count of live elements. -/
def tamano (v : Vec α) : Nat := v.elems.length

/-- Vector() (line 239): datos_ = nullptr, tamano_ = capacidad_ = 0. -/
def empty : Vec α := ⟨[], 0, true⟩

/-- Vector(Capacidad, valor) (lines 260-267): allocate Capacidad slots (a
non-null block even when Capacidad is 0) and fill them with copies. -/
def ctorFill (n : Nat) (x : α) : Vec α := ⟨List.replicate n x, n, false⟩

/-- Vector(std::initializer_list) (lines 245-252): tamano_ = capacidad_ =
list size, allocate (non-null even for the empty list), copy across. -/
def ctorList (l : List α) : Vec α := ⟨l, l.length, false⟩

/-- cambiarCapacidad (lines 2276-2308, C++11+ block): no-op when the request
does not exceed the current capacity; otherwise allocate a block of exactly
nuevaCapacidad slots, move the live elements across, release the old block
and adopt the new one.  (The `nuevaCapacidad == 0` defaulting branch is dead
code: 0 <= capacidad_ always holds, so the early return has already fired;
it is kept for fidelity to the source.) -/
def cambiarCapacidad (v : Vec α) (nuevaCapacidad : Nat) : Vec α :=
  if nuevaCapacidad ≤ v.capacidad then v
  else
    let nc := if nuevaCapacidad = 0
              then (if v.capacidad = 0 then 1 else v.capacidad * 2)
              else nuevaCapacidad
    ⟨v.elems, nc, false⟩

/-- aumentarCapacidad (lines 2005-2021, C++20 block); grow_to_fit and the
range-insertion paths delegate to it.  Grows to max(new_size, capacidad_*2)
when new_size exceeds the current capacity. -/
def aumentarCapacidad (v : Vec α) (newSize : Nat) : Vec α :=
  if newSize ≤ v.capacidad then v
  else ⟨v.elems, max newSize (v.capacidad * 2), false⟩

/-- reservar (lines 2699-2703); reserve delegates to it.  Requests exactly
nuevaCapacidad from cambiarCapacidad when it exceeds the capacity. -/
def reservar (v : Vec α) (nuevaCapacidad : Nat) : Vec α :=
  if nuevaCapacidad > v.capacidad then v.cambiarCapacidad nuevaCapacidad else v

/-- agregarFinal (lines 2127-2144); push_back delegates to it.  When full,
request capacity (capacidad_ == 0 ? 1 : capacidad_ * 2), then construct the
new element at index tamano_ and increment tamano_. -/
def agregarFinal (v : Vec α) (dato : α) : Vec α :=
  let v1 := if v.tamano = v.capacidad
            then v.cambiarCapacidad (if v.capacidad = 0 then 1 else v.capacidad * 2)
            else v
  ⟨v1.elems ++ [dato], v1.capacidad, v1.isNull⟩

/-- A sequence of push_back calls, first element pushed first. -/
def pushAll (v : Vec α) (l : List α) : Vec α := l.foldl agregarFinal v

/-- eliminarFinal (lines 2390-2396); pop_back delegates to it.  Throws on an
empty container, otherwise destroys the last element. -/
def eliminarFinal (v : Vec α) : Except VecErr (Vec α) :=
  if v.tamano = 0 then .error .outOfRange
  else .ok ⟨v.elems.dropLast, v.capacidad, v.isNull⟩

/-- The right-to-left shifting loop of insertar (lines 2591-2600) followed
by constructing the new value at the index: on the live prefix it inserts
the value at position i.  (The middle pattern is unreachable behind the
bounds check, where i never exceeds the length.) -/
def insertLoop : List α → Nat → α → List α
  | l, 0, x => x :: l
  | [], _ + 1, x => [x]
  | y :: ys, n + 1, x => y :: insertLoop ys n x

/-- insertar (lines 2587-2602, C++17 block); insert delegates to it.  Bounds
check indice > tamano_, grow by the doubling request when full, shift the
tail right, construct at indice, increment tamano_. -/
def insertar (v : Vec α) (indice : Nat) (dato : α) : Except VecErr (Vec α) :=
  if indice > v.tamano then .error .outOfRange
  else
    let v1 := if v.tamano = v.capacidad
              then v.cambiarCapacidad (if v.capacidad = 0 then 1 else v.capacidad * 2)
              else v
    .ok ⟨insertLoop v1.elems indice dato, v1.capacidad, v1.isNull⟩

/-- The destroy-then-shift-left loop of eliminar (lines 2617-2622): removes
the element at position i from the live prefix. -/
def eraseLoop : List α → Nat → List α
  | [], _ => []
  | _ :: ys, 0 => ys
  | y :: ys, n + 1 => y :: eraseLoop ys n

/-- eliminar (lines 2612-2625); erase(index) delegates to it.  Bounds check
indice >= tamano_, destroy, shift the tail left, decrement tamano_. -/
def eliminar (v : Vec α) (indice : Nat) : Except VecErr (Vec α) :=
  if indice ≥ v.tamano then .error .outOfRange
  else .ok ⟨eraseLoop v.elems indice, v.capacidad, v.isNull⟩

/-- en (lines 2188-2209) and at (lines 2219-2239): checked element access,
throwing std::out_of_range for every indice >= tamano_. -/
def en (v : Vec α) (indice : Nat) : Except VecErr α :=
  if h : indice < v.tamano then .ok (v.elems.get ⟨indice, h⟩)
  else .error .outOfRange

/-- Mutable operator[] (lines 2165-2167): returns a reference to
datos_[indice] and writes no member of the container, so the container
state after the call is the argument unchanged.  This function is the
post-state of such a direct index access. -/
def accessIndexState (v : Vec α) (_indice : Nat) : Vec α := v

/-- reducirCapacidad (lines 2728-2736, C++20 block); shrink_to_fit delegates
to it.  When capacidad_ > tamano_ it allocates `new tipodato[tamano_]`
(a non-null block even for tamano_ = 0), copies the live prefix across and
adopts the block with capacidad_ = tamano_. -/
def reducirCapacidad (v : Vec α) : Vec α :=
  if v.capacidad > v.tamano then ⟨v.elems, v.tamano, false⟩ else v

/-- redimensionar (lines 1920-1939); resize delegates to it.  Shrinking
destroys the tail and shrinks capacity when the new size drops below half
of it; growing requests exactly nuevoTam from cambiarCapacidad when needed
and fills the tail with copies of dato. -/
def redimensionar (v : Vec α) (nuevoTam : Nat) (dato : α) : Vec α :=
  if nuevoTam < v.tamano then
    let v1 : Vec α := ⟨v.elems.take nuevoTam, v.capacidad, v.isNull⟩
    if v1.tamano < v1.capacidad / 2 then v1.reducirCapacidad else v1
  else
    let v1 := if nuevoTam > v.capacidad then v.cambiarCapacidad nuevoTam else v
    ⟨v1.elems ++ List.replicate (nuevoTam - v1.tamano) dato, v1.capacidad, v1.isNull⟩

/-- clear (lines 1946-1956): destroy all live elements, release the block
(when non-null) and null the pointer, zero tamano_ and capacidad_. -/
def clear (_v : Vec α) : Vec α := ⟨[], 0, true⟩

/-- vaciar (lines 2378-2383): destroy the live elements and zero tamano_
only; the pointer and capacidad_ are untouched. -/
def vaciar (v : Vec α) : Vec α := ⟨[], v.capacidad, v.isNull⟩

/-- ordenar (lines 2819-2821); sort delegates to it.  std::sort over
[begin, end): the live elements become a non-decreasing permutation of
themselves. -/
def ordenar [LinearOrder α] (v : Vec α) : Vec α :=
  ⟨v.elems.insertionSort (· ≤ ·), v.capacidad, v.isNull⟩

/-- The collapsing walk of std::unique: drop every element equal to the
last kept one. -/
def uniqueFrom [DecidableEq α] (prev : α) : List α → List α
  | [] => []
  | y :: ys => if y = prev then uniqueFrom prev ys else y :: uniqueFrom y ys

/-- std::unique(begin, end) followed by erase(newEnd, end()): keeps the
first element of every run of adjacent equal elements. -/
def stdUnique [DecidableEq α] : List α → List α
  | [] => []
  | x :: xs => x :: uniqueFrom x xs

/-- eliminarDuplicados (lines 2865-2868); removeDuplicates delegates to it.
The body is ordenar(); erase(std::unique(begin(), end()), end()). -/
def eliminarDuplicados [LinearOrder α] (v : Vec α) : Vec α :=
  let s := v.ordenar
  ⟨stdUnique s.elems, s.capacidad, s.isNull⟩

/-- subvector (lines 2830-2839); slice delegates to it.  An invalid range
returns the empty vector; otherwise a fresh vector receives
agregarFinal(datos_[i]) for each i in [desde, hasta).  The function is
total: no path throws. -/
def subvector (v : Vec α) (desde hasta : Nat) : Vec α :=
  if desde ≥ hasta ∨ hasta > v.tamano ∨ desde > v.tamano then empty
  else pushAll empty ((v.elems.drop desde).take (hasta - desde))

/-- erase(Iterator) (lines 2532-2550, C++17 block).  The iterator is its
offset from begin(); the pointer test `it.ptr < datos_ || it.ptr >= datos_
+ tamano_` is offset < 0 or offset >= tamano_.  Returns the new container
together with the returned iterator offset. -/
def eraseIt (v : Vec α) (ofs : Int) : Except VecErr (Vec α × Int) :=
  if ofs < 0 ∨ (v.tamano : Int) ≤ ofs then .error .outOfRange
  else .ok (⟨eraseLoop v.elems ofs.toNat, v.capacidad, v.isNull⟩, ofs)

/-- erase(Iterator, Iterator) (lines 2561-2576, C++17 block), iterators as
offsets from begin() (non-negative offsets here; a negative pointer offset
converts to a huge size_t, deeper undefined behavior, again without any
throw).  The source performs NO bounds validation: `first == last` returns
first at once, and otherwise the tail from `last` onwards is relocated onto
`first` and tamano_ is reduced by the count.  For cursors beyond the live
range the size arithmetic underflows (undefined behavior); the model keeps
the relocated constructed prefix and, decisively for the claims, produces
no error on any input. -/
def eraseRangeM (v : Vec α) (first last : Nat) : Except VecErr (Vec α × Nat) :=
  if first = last then .ok (v, first)
  else .ok (⟨v.elems.take first ++ v.elems.drop last, v.capacidad, v.isNull⟩, first)

/-- operator!= (lines 1852-1858): true on a length mismatch, or at the
first position where the elements differ under the element type's EXACT
operator!= (no tolerance). -/
def neOp [DecidableEq α] (v w : Vec α) : Bool :=
  if v.tamano ≠ w.tamano then true
  else (v.elems.zip w.elems).any (fun p => decide (p.1 ≠ p.2))

/-- areEqual for floating-point element types (lines 56-60):
|a - b| <= std::numeric_limits::epsilon().  The floating-point type is
modelled with exact rational arithmetic; eps is the machine epsilon. -/
def areEqualF (eps a b : ℚ) : Bool := decide (|a - b| ≤ eps)

/-- operator== (lines 1836-1844) at a floating-point element type: length
check, then element-wise areEqual with the epsilon tolerance. -/
def eqOpF (eps : ℚ) (v w : Vec ℚ) : Bool :=
  if v.tamano ≠ w.tamano then false
  else (v.elems.zip w.elems).all (fun p => areEqualF eps p.1 p.2)

/-- The non-decreasing test on a list.  The source declares no
is_sorted_hint member (lines 210-214 list only datos_, tamano_, capacidad_
and alloc) and no is_sorted() accessor, so the only meaning available for
"is sorted" is this predicate on the live range itself. -/
def sortedB [LinearOrder α] : List α → Bool
  | [] => true
  | [_] => true
  | x :: y :: ys => decide (x ≤ y) && sortedB (y :: ys)

/-- The state invariants that do hold of the container: tamano_ <=
capacidad_, and a null datos_ forces capacidad_ = 0.  (The claimed converse
direction fails: zero-size allocations return non-null pointers.) -/
def Inv (v : Vec α) : Prop :=
  v.tamano ≤ v.capacidad ∧ (v.isNull = true → v.capacidad = 0)

end Vec

/-- Element slots for the exception-safety model of cambiarCapacidad:
`some a` is a constructed element holding value a; `none` is the
valid-but-unspecified state that a throwing-move element type leaves
behind once its value has been moved out. -/
structure VecE (α : Type) where
  elems : List (Option α)
  capacidad : Nat
deriving DecidableEq

/-- cambiarCapacidad (lines 2284-2308) for an element type whose move
constructor may throw, `throwAt` being the construction index at which it
does.  The loop move-constructs nuevo[i] from datos_[i] with an unguarded
std::move (no move_if_noexcept fallback); the catch block destroys the
constructed prefix of the new block, deallocates it and rethrows, leaving
datos_, tamano_ and capacidad_ untouched -- but the old slots [0, throwAt)
have already been moved from.  `.error s` is the container state observed
after the rethrown exception; `.ok s` the state on success. -/
def VecE.cambiarCapacidadThrow (v : VecE α) (nuevaCapacidad : Nat)
    (throwAt : Nat) : Except (VecE α) (VecE α) :=
  if nuevaCapacidad ≤ v.capacidad then .ok v
  else if throwAt < v.elems.length then
    .error ⟨List.replicate throwAt (none : Option α) ++ v.elems.drop throwAt,
            v.capacidad⟩
  else
    .ok ⟨v.elems, nuevaCapacidad⟩

/-! ### Basic lemmas about the embedded operations -/

namespace Vec

variable {α : Type}

@[simp]
theorem tamano_mk (e : List α) (c : Nat) (b : Bool) :
    (Vec.mk e c b).tamano = e.length := rfl

theorem cambiarCapacidad_elems (v : Vec α) (m : Nat) :
    (v.cambiarCapacidad m).elems = v.elems := by
  unfold cambiarCapacidad; split <;> rfl

theorem cambiarCapacidad_capacidad_of_lt (v : Vec α) (m : Nat)
    (h : v.capacidad < m) : (v.cambiarCapacidad m).capacidad = m := by
  have h0 : ¬ m ≤ v.capacidad := Nat.not_le.mpr h
  have h1 : m ≠ 0 := by omega
  simp [cambiarCapacidad, h0, h1]

theorem cambiarCapacidad_isNull_of_lt (v : Vec α) (m : Nat)
    (h : v.capacidad < m) : (v.cambiarCapacidad m).isNull = false := by
  simp [cambiarCapacidad, Nat.not_le.mpr h]

theorem agregarFinal_elems (v : Vec α) (x : α) :
    (v.agregarFinal x).elems = v.elems ++ [x] := by
  unfold agregarFinal
  split <;> simp [cambiarCapacidad_elems]

theorem agregarFinal_tamano (v : Vec α) (x : α) :
    (v.agregarFinal x).tamano = v.tamano + 1 := by
  simp [tamano, agregarFinal_elems]

theorem agregarFinal_capacidad (v : Vec α) (x : α) :
    (v.agregarFinal x).capacidad =
      if v.tamano = v.capacidad
      then (if v.capacidad = 0 then 1 else v.capacidad * 2)
      else v.capacidad := by
  unfold agregarFinal
  by_cases h : v.tamano = v.capacidad
  · have hlt : v.capacidad < (if v.capacidad = 0 then 1 else v.capacidad * 2) := by
      by_cases h0 : v.capacidad = 0
      · simp [h0]
      · simp only [h0, if_false]; omega
    simp [h, cambiarCapacidad_capacidad_of_lt _ _ hlt]
  · simp [h]

theorem pushAll_cons (v : Vec α) (x : α) (xs : List α) :
    v.pushAll (x :: xs) = (v.agregarFinal x).pushAll xs := rfl

theorem pushAll_elems (v : Vec α) (l : List α) :
    (v.pushAll l).elems = v.elems ++ l := by
  induction l generalizing v with
  | nil => simp [pushAll]
  | cons x xs ih =>
      rw [pushAll_cons, ih, agregarFinal_elems]
      simp

theorem pushAll_tamano (v : Vec α) (l : List α) :
    (v.pushAll l).tamano = v.tamano + l.length := by
  simp [tamano, pushAll_elems]

theorem insertLoop_length (x : α) :
    ∀ (l : List α) (i : Nat), (insertLoop l i x).length = l.length + 1
  | _, 0 => by simp [insertLoop]
  | [], _ + 1 => by simp [insertLoop]
  | _ :: ys, n + 1 => by simp [insertLoop, insertLoop_length x ys n]

theorem eraseLoop_insertLoop (x : α) :
    ∀ (i : Nat) (l : List α), i ≤ l.length →
      eraseLoop (insertLoop l i x) i = l
  | 0, l, _ => by simp [insertLoop, eraseLoop]
  | _ + 1, [], h => absurd h (by simp)
  | n + 1, y :: ys, h => by
      have hn : n ≤ ys.length := by simpa using h
      simp [insertLoop, eraseLoop, eraseLoop_insertLoop x n ys hn]

theorem eraseLoop_length_le : ∀ (l : List α) (i : Nat),
    (eraseLoop l i).length ≤ l.length
  | [], _ => Nat.le_refl _
  | _ :: _, 0 => by simp [eraseLoop]
  | y :: ys, n + 1 => by
      have := eraseLoop_length_le ys n
      simp [eraseLoop]; omega

/-! ### C7: clear versus vaciar -/

/-- C7: for every container, clear() leaves size 0 and capacity 0 (storage
released), while vaciar() leaves size 0 and the capacity exactly as it was
(storage kept reserved). -/
theorem C7_clear_vs_vaciar (v : Vec Nat) :
    (clear v).tamano = 0 ∧ (clear v).capacidad = 0 ∧
      (vaciar v).tamano = 0 ∧ (vaciar v).capacidad = v.capacidad :=
  ⟨rfl, rfl, rfl, rfl⟩

/-! ### C6: insert then erase round-trip -/

/-- C6: for every container, every value x and every valid index
i <= length, insert(i, x) followed by erase(i) restores the prior sequence
exactly: both calls succeed and the resulting length and elements are those
before the insert. -/
theorem C6_insert_erase_roundtrip (v : Vec Nat) (i : Nat) (x : Nat)
    (h : i ≤ v.tamano) :
    ∃ v1 v2, v.insertar i x = .ok v1 ∧ v1.eliminar i = .ok v2 ∧
      v2.elems = v.elems ∧ v2.tamano = v.tamano := by
  have hnot : ¬ i > v.tamano := Nat.not_lt.mpr h
  set v0 := if v.tamano = v.capacidad
            then v.cambiarCapacidad (if v.capacidad = 0 then 1 else v.capacidad * 2)
            else v with hv0
  have helems : v0.elems = v.elems := by
    rw [hv0]; split <;> simp [cambiarCapacidad_elems]
  have h1 : v.insertar i x = .ok ⟨insertLoop v0.elems i x, v0.capacidad, v0.isNull⟩ := by
    simp [insertar, hnot, hv0]
  have hlen : i < (insertLoop v0.elems i x).length := by
    rw [insertLoop_length, helems]
    exact Nat.lt_succ_of_le h
  have h2 : (Vec.mk (insertLoop v0.elems i x) v0.capacidad v0.isNull).eliminar i =
      .ok ⟨eraseLoop (insertLoop v0.elems i x) i, v0.capacidad, v0.isNull⟩ := by
    simp [eliminar, Nat.not_le.mpr hlen]
  refine ⟨_, _, h1, h2, ?_, ?_⟩
  · simp [helems, eraseLoop_insertLoop x i v.elems h]
  · simp [tamano, helems, eraseLoop_insertLoop x i v.elems h]

/-- C6 witness: the round-trip at the concrete container [4, 6], index 1,
value 5. -/
theorem C6_insert_erase_roundtrip_witness :
    1 ≤ (ctorList [(4 : Nat), 6]).tamano ∧
      ∃ v1 v2, (ctorList [(4 : Nat), 6]).insertar 1 5 = .ok v1 ∧
        v1.eliminar 1 = .ok v2 ∧ v2.elems = (ctorList [(4 : Nat), 6]).elems ∧
        v2.tamano = (ctorList [(4 : Nat), 6]).tamano :=
  ⟨by decide, C6_insert_erase_roundtrip (ctorList [4, 6]) 1 5 (by decide)⟩

/-! ### C9: subvector / slice -/

/-- C9: slice(from, to) returns a container holding copies of the elements
[from, to) when the range is valid, and returns the empty container for
every invalid request (from >= to, or a bound past the length); the
operation is total, so no request throws. -/
theorem C9_subvector_slice (v : Vec Nat) (desde hasta : Nat) :
    ((desde ≥ hasta ∨ hasta > v.tamano ∨ desde > v.tamano) →
        v.subvector desde hasta = empty) ∧
      (desde < hasta → hasta ≤ v.tamano →
        (v.subvector desde hasta).elems =
          (v.elems.drop desde).take (hasta - desde)) := by
  constructor
  · intro h
    simp only [subvector, if_pos h]
  · intro h1 h2
    have hnot : ¬ (desde ≥ hasta ∨ hasta > v.tamano ∨ desde > v.tamano) := by
      push_neg
      exact ⟨h1, h2, le_trans (Nat.le_of_lt h1) h2⟩
    simp only [subvector, if_neg hnot, pushAll_elems, empty, List.nil_append]

/-- C9 witness: slicing [7, 8, 9] with the valid range [1, 3) and with the
invalid range [2, 1). -/
theorem C9_subvector_slice_witness :
    ((ctorList [(7 : Nat), 8, 9]).subvector 1 3).elems = [8, 9] ∧
      (ctorList [(7 : Nat), 8, 9]).subvector 2 1 = empty := by
  constructor
  · rw [(C9_subvector_slice (ctorList [7, 8, 9]) 1 3).2 (by decide) (by decide)]
    decide
  · exact (C9_subvector_slice (ctorList [7, 8, 9]) 2 1).1 (by decide)

/-! ### C1: the capacity growth policy -/

/-- The capacity discipline that the push_back growth path maintains: either
the container has never allocated, or the capacity is the least power of two
covering the length. -/
def GrowthInv (v : Vec α) : Prop :=
  (v.capacidad = 0 ∧ v.elems = []) ∨
    (∃ k, v.capacidad = 2 ^ k ∧ v.tamano ≤ v.capacidad ∧
      v.capacidad < 2 * v.tamano)

theorem growthInv_agregarFinal (v : Vec α) (x : α) (h : GrowthInv v) :
    GrowthInv (v.agregarFinal x) := by
  have hcap := agregarFinal_capacidad v x
  have htam := agregarFinal_tamano v x
  rcases h with ⟨h0, he⟩ | ⟨k, hk, hle, hlt⟩
  · have ht : v.tamano = 0 := by simp [tamano, he]
    have hfull : v.tamano = v.capacidad := by rw [ht, h0]
    have hc : (v.agregarFinal x).capacidad = 1 := by
      rw [hcap, if_pos hfull, if_pos h0]
    have ht2 : (v.agregarFinal x).tamano = 1 := by rw [htam, ht]
    exact Or.inr ⟨0, by rw [hc]; rfl, by rw [hc, ht2], by rw [hc, ht2]; omega⟩
  · have hpos : 0 < v.capacidad := hk ▸ (by positivity)
    by_cases hfull : v.tamano = v.capacidad
    · have hc : (v.agregarFinal x).capacidad = v.capacidad * 2 := by
        rw [hcap, if_pos hfull, if_neg (Nat.ne_of_gt hpos)]
      refine Or.inr ⟨k + 1, ?_, ?_, ?_⟩
      · rw [hc, hk]; ring
      · rw [hc, htam]; omega
      · rw [hc, htam]; omega
    · have hc : (v.agregarFinal x).capacidad = v.capacidad := by
        rw [hcap, if_neg hfull]
      refine Or.inr ⟨k, ?_, ?_, ?_⟩
      · rw [hc, hk]
      · rw [hc, htam]; omega
      · rw [hc, htam]; omega

theorem growthInv_pushAll (v : Vec α) (l : List α) (h : GrowthInv v) :
    GrowthInv (v.pushAll l) := by
  induction l generalizing v with
  | nil => exact h
  | cons x xs ih => rw [pushAll_cons]; exact ih _ (growthInv_agregarFinal v x h)

/-- C1 counterexample: a growth-triggering reserve request does NOT grow to
max(min, 2 * old capacity).  After two push_back calls the capacity is 2;
reservar(3) is growth-triggering (3 > 2) yet the new capacity is exactly 3,
not max(3, 4) = 4. -/
theorem C1_counterexample :
    (pushAll (empty : Vec Nat) [0, 0]).capacidad < 3 ∧
      ((pushAll (empty : Vec Nat) [0, 0]).reservar 3).capacidad ≠
        max 3 ((pushAll (empty : Vec Nat) [0, 0]).capacidad * 2) := by
  decide

/-- C1 (amended): only aumentarCapacidad grows to max(min, 2 * old
capacity); cambiarCapacidad, and with it reservar/reserve and the growing
branch of redimensionar/resize, grow to EXACTLY the requested minimum.  The
push_back part of the claim does hold: a sequence of N push_back calls from
an empty container yields length N, capacity at least N, and every capacity
taken is a power of two below 2 * N, i.e. the doubling sequence 1, 2, 4, ...
(capacity 0 grows to 1 on the first growth). -/
theorem C1_growth_policy :
    (∀ (v : Vec Nat) (m : Nat), v.capacidad < m →
        (v.aumentarCapacidad m).capacidad = max m (v.capacidad * 2)) ∧
      (∀ (v : Vec Nat) (m : Nat), v.capacidad < m →
        (v.reservar m).capacidad = m) ∧
      (∀ (v : Vec Nat) (m : Nat) (x : Nat), v.tamano ≤ m → v.capacidad < m →
        (v.redimensionar m x).capacidad = m) ∧
      (∀ l : List Nat,
        (pushAll (empty : Vec Nat) l).tamano = l.length ∧
          l.length ≤ (pushAll (empty : Vec Nat) l).capacidad ∧
          ((pushAll (empty : Vec Nat) l).capacidad = 0 ∨
            ∃ k, (pushAll (empty : Vec Nat) l).capacidad = 2 ^ k ∧
              (pushAll (empty : Vec Nat) l).capacidad < 2 * l.length)) := by
  refine ⟨?_, ?_, ?_, ?_⟩
  · intro v m h
    simp [aumentarCapacidad, Nat.not_le.mpr h]
  · intro v m h
    simp [reservar, h, cambiarCapacidad_capacidad_of_lt v m h]
  · intro v m x h1 h2
    have hns : ¬ m < v.tamano := Nat.not_lt.mpr h1
    simp [redimensionar, hns, h2, cambiarCapacidad_capacidad_of_lt v m h2]
  · intro l
    have htam : (pushAll (empty : Vec Nat) l).tamano = l.length := by
      rw [pushAll_tamano]; simp [empty, tamano]
    have hinv : GrowthInv (pushAll (empty : Vec Nat) l) :=
      growthInv_pushAll _ l (Or.inl ⟨rfl, rfl⟩)
    refine ⟨htam, ?_, ?_⟩
    · rcases hinv with ⟨h0, he⟩ | ⟨k, hk, hle, hlt⟩
      · have : l.length = 0 := by rw [← htam]; simp [tamano, he]
        omega
      · rw [← htam]; exact hle
    · rcases hinv with ⟨h0, _⟩ | ⟨k, hk, _, hlt⟩
      · exact Or.inl h0
      · exact Or.inr ⟨k, hk, htam ▸ hlt⟩

/-- C1 witness: concrete growth through each path, plus a three-element
push_back sequence. -/
theorem C1_growth_policy_witness :
    ((ctorFill 2 (0 : Nat)).aumentarCapacidad 5).capacidad =
        max 5 ((ctorFill 2 (0 : Nat)).capacidad * 2) ∧
      ((ctorFill 2 (0 : Nat)).reservar 3).capacidad = 3 ∧
      ((ctorFill 2 (0 : Nat)).redimensionar 7 0).capacidad = 7 ∧
      (pushAll (empty : Vec Nat) [5, 3, 4]).tamano = 3 :=
  ⟨C1_growth_policy.1 (ctorFill 2 0) 5 (by decide),
    C1_growth_policy.2.1 (ctorFill 2 0) 3 (by decide),
    C1_growth_policy.2.2.1 (ctorFill 2 0) 7 0 (by decide) (by decide),
    (C1_growth_policy.2.2.2 [5, 3, 4]).1 ▸ rfl⟩

/-! ### C4: bounds errors -/

/-- C4 counterexample: the range overload erase(first, last) performs NO
bounds check.  On the one-element container [5] the cursor pair (begin,
begin + 2) is outside the live range [begin, end) -- 2 exceeds the length 1
-- yet the call returns normally instead of raising an out-of-range error. -/
theorem C4_counterexample :
    (ctorList [(5 : Nat)]).tamano < 2 ∧
      (ctorList [(5 : Nat)]).eraseRangeM 0 2 = .ok (⟨[], 1, false⟩, 0) := by
  constructor
  · decide
  · rfl

/-- C4 (amended): at/en throws for every index >= length, insert/insertar
throws for every index > length, erase/eliminar throws for every index >=
length, pop_back/eliminarFinal throws on an empty container, and
erase(iterator) throws whenever the cursor is outside the live range
[begin, end); but erase(first, last) performs no bounds validation and
never throws (out-of-range cursor pairs are undefined behavior, not a
surfaced error). -/
theorem C4_bounds_checks :
    (∀ (v : Vec Nat) (i : Nat), v.tamano ≤ i → v.en i = .error .outOfRange) ∧
      (∀ (v : Vec Nat) (i x : Nat), v.tamano < i →
        v.insertar i x = .error .outOfRange) ∧
      (∀ (v : Vec Nat) (i : Nat), v.tamano ≤ i →
        v.eliminar i = .error .outOfRange) ∧
      (∀ v : Vec Nat, v.tamano = 0 → v.eliminarFinal = .error .outOfRange) ∧
      (∀ (v : Vec Nat) (ofs : Int), (ofs < 0 ∨ (v.tamano : Int) ≤ ofs) →
        v.eraseIt ofs = .error .outOfRange) ∧
      (∀ (v : Vec Nat) (first last : Nat),
        ∃ r, v.eraseRangeM first last = .ok r) := by
  refine ⟨?_, ?_, ?_, ?_, ?_, ?_⟩
  · intro v i h
    simp [en, Nat.not_lt.mpr h]
  · intro v i x h
    simp [insertar, h]
  · intro v i h
    simp [eliminar, h]
  · intro v h
    simp [eliminarFinal, h]
  · intro v ofs h
    simp [eraseIt, if_pos h]
  · intro v first last
    by_cases h : first = last
    · exact ⟨(v, first), by simp [eraseRangeM, h]⟩
    · exact ⟨(⟨v.elems.take first ++ v.elems.drop last, v.capacidad, v.isNull⟩,
        first), by simp [eraseRangeM, h]⟩

/-- C4 witness: the checks at concrete out-of-range inputs on [5, 6], and
the empty container for pop_back. -/
theorem C4_bounds_checks_witness :
    (ctorList [(5 : Nat), 6]).en 2 = .error .outOfRange ∧
      (ctorList [(5 : Nat), 6]).insertar 3 0 = .error .outOfRange ∧
      (ctorList [(5 : Nat), 6]).eliminar 2 = .error .outOfRange ∧
      (empty : Vec Nat).eliminarFinal = .error .outOfRange ∧
      (ctorList [(5 : Nat), 6]).eraseIt (-1) = .error .outOfRange ∧
      ∃ r, (ctorList [(5 : Nat), 6]).eraseRangeM 0 9 = .ok r :=
  ⟨C4_bounds_checks.1 (ctorList [5, 6]) 2 (by decide),
    C4_bounds_checks.2.1 (ctorList [5, 6]) 3 0 (by decide),
    C4_bounds_checks.2.2.1 (ctorList [5, 6]) 2 (by decide),
    C4_bounds_checks.2.2.2.1 empty (by decide),
    C4_bounds_checks.2.2.2.2.1 (ctorList [5, 6]) (-1) (by decide),
    C4_bounds_checks.2.2.2.2.2 (ctorList [5, 6]) 0 9⟩

/-! ### C5: there is no sorted hint -/

theorem sortedB_of_chain [LinearOrder α] :
    ∀ l : List α, List.Chain' (· ≤ ·) l → sortedB l = true
  | [], _ => rfl
  | [_], _ => rfl
  | x :: y :: ys, h => by
      rw [List.chain'_cons] at h
      simp [sortedB, h.1, sortedB_of_chain (y :: ys) h.2]

/-- C5 counterexample: a direct mutable index access does NOT reset any
sortedness state.  The source has no is_sorted_hint member at all, and
operator[] writes no member: after sort() on [2, 1] followed by a mutable
operator[](0) access, the container is bit-for-bit unchanged and its live
range is still non-decreasing, contradicting the claim that the access
resets is_sorted() to false. -/
theorem C5_counterexample :
    (ordenar (ctorList [(2 : Nat), 1])).accessIndexState 0 =
        ordenar (ctorList [(2 : Nat), 1]) ∧
      sortedB ((ordenar (ctorList [(2 : Nat), 1])).accessIndexState 0).elems =
        true :=
  ⟨rfl, by decide⟩

/-- C5 (amended): the container stores no is_sorted hint (its only members
are datos_, tamano_, capacidad_ and the allocator), so "is sorted" can only
mean the non-decreasing predicate on the live range.  That predicate is
always true after sort(); and a direct mutable index access leaves the
container state entirely unchanged, resetting nothing. -/
theorem C5_sort_and_access (v : Vec Nat) :
    sortedB (v.ordenar).elems = true ∧ ∀ i, v.accessIndexState i = v := by
  constructor
  · exact sortedB_of_chain _
      (List.chain'_iff_pairwise.mpr (List.sorted_insertionSort (· ≤ ·) v.elems))
  · intro i; rfl

/-! ### C3: state invariants -/

theorem inv_empty : (empty : Vec α).Inv := ⟨Nat.le_refl 0, fun _ => rfl⟩

theorem inv_ctorFill (n : Nat) (x : α) : (ctorFill n x).Inv := by
  constructor
  · simp [ctorFill, tamano]
  · intro h
    simp [ctorFill] at h

theorem inv_ctorList (l : List α) : (ctorList l).Inv := by
  constructor
  · simp [ctorList, tamano]
  · intro h
    simp [ctorList] at h

theorem inv_cambiarCapacidad (v : Vec α) (m : Nat) (h : v.Inv) :
    (v.cambiarCapacidad m).Inv := by
  by_cases hm : m ≤ v.capacidad
  · simpa [cambiarCapacidad, hm] using h
  · have hlt : v.capacidad < m := Nat.not_le.mp hm
    constructor
    · have h1 := h.1
      have he : (v.cambiarCapacidad m).tamano = v.tamano := by
        simp [tamano, cambiarCapacidad_elems]
      rw [he, cambiarCapacidad_capacidad_of_lt v m hlt]
      omega
    · rw [cambiarCapacidad_isNull_of_lt v m hlt]
      intro hfalse
      cases hfalse

theorem inv_aumentarCapacidad (v : Vec α) (m : Nat) (h : v.Inv) :
    (v.aumentarCapacidad m).Inv := by
  by_cases hm : m ≤ v.capacidad
  · simpa [aumentarCapacidad, hm] using h
  · have h1 := h.1
    constructor
    · simp only [aumentarCapacidad, if_neg hm, tamano_mk]
      have ht : v.tamano = v.elems.length := rfl
      omega
    · simp [aumentarCapacidad, if_neg hm]

theorem inv_reservar (v : Vec α) (m : Nat) (h : v.Inv) : (v.reservar m).Inv := by
  unfold reservar
  split
  · exact inv_cambiarCapacidad v m h
  · exact h

/-- The grow-if-full step shared by agregarFinal, insertar and emplace:
starting from a container satisfying the invariants, it keeps the elements,
ends with room for one more element, and ends with non-null storage. -/
theorem growStep_spec (v : Vec α) (h : v.Inv) :
    ((if v.tamano = v.capacidad
      then v.cambiarCapacidad (if v.capacidad = 0 then 1 else v.capacidad * 2)
      else v).elems = v.elems) ∧
      (v.tamano <
        (if v.tamano = v.capacidad
         then v.cambiarCapacidad (if v.capacidad = 0 then 1 else v.capacidad * 2)
         else v).capacidad) ∧
      ((if v.tamano = v.capacidad
        then v.cambiarCapacidad (if v.capacidad = 0 then 1 else v.capacidad * 2)
        else v).isNull = false) := by
  by_cases hfull : v.tamano = v.capacidad
  · have hlt : v.capacidad < (if v.capacidad = 0 then 1 else v.capacidad * 2) := by
      by_cases h0 : v.capacidad = 0
      · simp [h0]
      · simp only [h0, if_false]
        omega
    rw [if_pos hfull]
    refine ⟨cambiarCapacidad_elems _ _, ?_, cambiarCapacidad_isNull_of_lt _ _ hlt⟩
    rw [cambiarCapacidad_capacidad_of_lt _ _ hlt, hfull]
    exact hlt
  · rw [if_neg hfull]
    have h1 := h.1
    have hbl : v.tamano < v.capacidad := lt_of_le_of_ne h1 hfull
    have hnull : v.isNull = false := by
      cases hb : v.isNull
      · rfl
      · exact absurd hbl (by have := h.2 hb; omega)
    exact ⟨rfl, hbl, hnull⟩

theorem inv_agregarFinal (v : Vec α) (x : α) (h : v.Inv) :
    (v.agregarFinal x).Inv := by
  obtain ⟨he, hc, hn⟩ := growStep_spec v h
  simp only [agregarFinal]
  constructor
  · simp only [tamano_mk, List.length_append, he, List.length_singleton]
    exact hc
  · simp [hn]

theorem inv_pushAll (v : Vec α) (l : List α) (h : v.Inv) : (v.pushAll l).Inv := by
  induction l generalizing v with
  | nil => exact h
  | cons x xs ih => rw [pushAll_cons]; exact ih _ (inv_agregarFinal v x h)

theorem inv_eliminarFinal (v w : Vec α) (h : v.Inv)
    (hw : v.eliminarFinal = .ok w) : w.Inv := by
  unfold eliminarFinal at hw
  by_cases h0 : v.tamano = 0
  · simp [h0] at hw
  · rw [if_neg h0, Except.ok.injEq] at hw
    subst hw
    refine ⟨?_, h.2⟩
    have h1 := h.1
    have ht : v.tamano = v.elems.length := rfl
    simp only [tamano_mk, List.length_dropLast]
    omega

theorem inv_insertar (v w : Vec α) (i : Nat) (x : α) (h : v.Inv)
    (hw : v.insertar i x = .ok w) : w.Inv := by
  obtain ⟨he, hc, hn⟩ := growStep_spec v h
  by_cases hb : i > v.tamano
  · simp [insertar, hb] at hw
  · simp only [insertar, if_neg hb, Except.ok.injEq] at hw
    subst hw
    constructor
    · simp only [tamano_mk, insertLoop_length, he]
      exact hc
    · simp [hn]

theorem inv_eliminar (v w : Vec α) (i : Nat) (h : v.Inv)
    (hw : v.eliminar i = .ok w) : w.Inv := by
  unfold eliminar at hw
  by_cases hb : i ≥ v.tamano
  · simp [hb] at hw
  · rw [if_neg hb, Except.ok.injEq] at hw
    subst hw
    refine ⟨?_, h.2⟩
    have hlen := eraseLoop_length_le v.elems i
    have h1 := h.1
    have ht : v.tamano = v.elems.length := rfl
    simp only [tamano_mk]
    omega

theorem inv_reducirCapacidad (v : Vec α) (h : v.Inv) : v.reducirCapacidad.Inv := by
  unfold reducirCapacidad
  by_cases hb : v.capacidad > v.tamano
  · rw [if_pos hb]
    exact ⟨Nat.le_refl _, by simp⟩
  · rw [if_neg hb]
    exact h

theorem inv_redimensionar (v : Vec α) (nt : Nat) (x : α) (h : v.Inv) :
    (v.redimensionar nt x).Inv := by
  simp only [redimensionar]
  by_cases hb : nt < v.tamano
  · rw [if_pos hb]
    have hv1 : (Vec.mk (v.elems.take nt) v.capacidad v.isNull).Inv := by
      refine ⟨?_, h.2⟩
      have h1 := h.1
      have ht : v.tamano = v.elems.length := rfl
      simp only [tamano_mk, List.length_take]
      omega
    split
    · exact inv_reducirCapacidad _ hv1
    · exact hv1
  · rw [if_neg hb]
    by_cases hg : nt > v.capacidad
    · rw [if_pos hg]
      constructor
      · simp only [tamano_mk, List.length_append, List.length_replicate, tamano,
          cambiarCapacidad_elems, cambiarCapacidad_capacidad_of_lt v nt hg]
        have h1 := h.1
        have ht : v.tamano = v.elems.length := rfl
        omega
      · simp [cambiarCapacidad_isNull_of_lt v nt hg]
    · rw [if_neg hg]
      refine ⟨?_, h.2⟩
      have h1 := h.1
      have ht : v.tamano = v.elems.length := rfl
      simp only [tamano_mk, List.length_append, List.length_replicate, tamano]
      omega

theorem inv_clear (v : Vec α) : (clear v).Inv := ⟨Nat.le_refl 0, fun _ => rfl⟩

theorem inv_vaciar (v : Vec α) (h : v.Inv) : (vaciar v).Inv :=
  ⟨Nat.zero_le _, h.2⟩

theorem inv_ordenar [LinearOrder α] (v : Vec α) (h : v.Inv) : v.ordenar.Inv := by
  refine ⟨?_, h.2⟩
  simp only [ordenar, tamano_mk, List.length_insertionSort]
  exact h.1

theorem uniqueFrom_length_le [DecidableEq α] (p : α) :
    ∀ l : List α, (uniqueFrom p l).length ≤ l.length
  | [] => Nat.le_refl 0
  | y :: ys => by
      by_cases hy : y = p
      · simp only [uniqueFrom, if_pos hy]
        exact le_trans (uniqueFrom_length_le p ys) (Nat.le_succ _)
      · simp only [uniqueFrom, if_neg hy, List.length_cons]
        exact Nat.succ_le_succ (uniqueFrom_length_le y ys)

theorem stdUnique_length_le [DecidableEq α] :
    ∀ l : List α, (stdUnique l).length ≤ l.length
  | [] => Nat.le_refl 0
  | x :: xs => by
      simp only [stdUnique, List.length_cons]
      exact Nat.succ_le_succ (uniqueFrom_length_le x xs)

theorem inv_eliminarDuplicados [LinearOrder α] (v : Vec α) (h : v.Inv) :
    v.eliminarDuplicados.Inv := by
  refine ⟨?_, h.2⟩
  simp only [eliminarDuplicados, ordenar, tamano_mk]
  calc (stdUnique (v.elems.insertionSort (· ≤ ·))).length
      ≤ (v.elems.insertionSort (· ≤ ·)).length := stdUnique_length_le _
    _ = v.elems.length := List.length_insertionSort _ _
    _ ≤ v.capacidad := h.1

theorem inv_subvector (v : Vec α) (d hasta : Nat) : (v.subvector d hasta).Inv := by
  unfold subvector
  split
  · exact inv_empty
  · exact inv_pushAll _ _ inv_empty

theorem inv_eraseIt (v w : Vec α) (ofs r : Int) (h : v.Inv)
    (hw : v.eraseIt ofs = .ok (w, r)) : w.Inv := by
  unfold eraseIt at hw
  split at hw
  · cases hw
  · rw [Except.ok.injEq, Prod.mk.injEq] at hw
    obtain ⟨hw1, _⟩ := hw
    subst hw1
    refine ⟨?_, h.2⟩
    have hlen := eraseLoop_length_le v.elems ofs.toNat
    have h1 := h.1
    have ht : v.tamano = v.elems.length := rfl
    simp only [tamano_mk]
    omega

theorem inv_eraseRangeM (v w : Vec α) (first last r : Nat) (h : v.Inv)
    (hf : first ≤ last) (hl : last ≤ v.tamano)
    (hw : v.eraseRangeM first last = .ok (w, r)) : w.Inv := by
  unfold eraseRangeM at hw
  by_cases he : first = last
  · rw [if_pos he, Except.ok.injEq, Prod.mk.injEq] at hw
    obtain ⟨hw1, _⟩ := hw
    exact hw1 ▸ h
  · rw [if_neg he, Except.ok.injEq, Prod.mk.injEq] at hw
    obtain ⟨hw1, _⟩ := hw
    subst hw1
    refine ⟨?_, h.2⟩
    have h1 := h.1
    have ht : v.tamano = v.elems.length := rfl
    simp only [tamano_mk, List.length_append, List.length_take, List.length_drop]
    omega

/-- C3 counterexample: "storage is nullptr iff capacity == 0" fails in
reachable states.  Constructing with size 0 calls allocate(0), which
returns a non-null pointer with capacity 0; and shrink_to_fit on an empty
container with reserved storage allocates `new tipodato[0]` (non-null) and
sets capacity to 0. -/
theorem C3_counterexample :
    (¬ ((ctorFill 0 (0 : Nat)).isNull = true ↔
        (ctorFill 0 (0 : Nat)).capacidad = 0)) ∧
      (¬ (((ctorList [(5 : Nat)]).vaciar.reducirCapacidad).isNull = true ↔
          ((ctorList [(5 : Nat)]).vaciar.reducirCapacidad).capacidad = 0)) := by
  decide

/-- C3 (amended): every modelled public operation preserves the invariants
that do hold -- length <= capacity, and null storage implies capacity 0.
The converse direction of the claimed iff (capacity 0 implies null storage)
is exactly what the counterexample refutes.  For erase(first, last) the
range must be valid: invalid cursors are undefined behavior (the size
bookkeeping underflows), not a preserved-invariant path. -/
theorem C3_invariants :
    ((empty : Vec Nat).Inv) ∧
      (∀ n x : Nat, (ctorFill n x).Inv) ∧
      (∀ l : List Nat, (ctorList l).Inv) ∧
      (∀ (v : Vec Nat) (x : Nat), v.Inv → (v.agregarFinal x).Inv) ∧
      (∀ v w : Vec Nat, v.Inv → v.eliminarFinal = .ok w → w.Inv) ∧
      (∀ (v w : Vec Nat) (i x : Nat), v.Inv → v.insertar i x = .ok w → w.Inv) ∧
      (∀ (v w : Vec Nat) (i : Nat), v.Inv → v.eliminar i = .ok w → w.Inv) ∧
      (∀ (v : Vec Nat) (m : Nat), v.Inv → (v.cambiarCapacidad m).Inv) ∧
      (∀ (v : Vec Nat) (m : Nat), v.Inv → (v.aumentarCapacidad m).Inv) ∧
      (∀ (v : Vec Nat) (m : Nat), v.Inv → (v.reservar m).Inv) ∧
      (∀ (v : Vec Nat) (nt x : Nat), v.Inv → (v.redimensionar nt x).Inv) ∧
      (∀ v : Vec Nat, v.Inv → v.reducirCapacidad.Inv) ∧
      (∀ v : Vec Nat, (clear v).Inv) ∧
      (∀ v : Vec Nat, v.Inv → (vaciar v).Inv) ∧
      (∀ v : Vec Nat, v.Inv → v.ordenar.Inv) ∧
      (∀ v : Vec Nat, v.Inv → v.eliminarDuplicados.Inv) ∧
      (∀ (v : Vec Nat) (d hasta : Nat), (v.subvector d hasta).Inv) ∧
      (∀ (v w : Vec Nat) (ofs r : Int), v.Inv →
        v.eraseIt ofs = .ok (w, r) → w.Inv) ∧
      (∀ (v w : Vec Nat) (first last r : Nat), v.Inv → first ≤ last →
        last ≤ v.tamano → v.eraseRangeM first last = .ok (w, r) → w.Inv) :=
  ⟨inv_empty, inv_ctorFill, inv_ctorList,
    fun v x h => inv_agregarFinal v x h,
    fun v w h hw => inv_eliminarFinal v w h hw,
    fun v w i x h hw => inv_insertar v w i x h hw,
    fun v w i h hw => inv_eliminar v w i h hw,
    fun v m h => inv_cambiarCapacidad v m h,
    fun v m h => inv_aumentarCapacidad v m h,
    fun v m h => inv_reservar v m h,
    fun v nt x h => inv_redimensionar v nt x h,
    fun v h => inv_reducirCapacidad v h,
    inv_clear,
    fun v h => inv_vaciar v h,
    fun v h => inv_ordenar v h,
    fun v h => inv_eliminarDuplicados v h,
    fun v d hasta => inv_subvector v d hasta,
    fun v w ofs r h hw => inv_eraseIt v w ofs r h hw,
    fun v w first last r h hf hl hw => inv_eraseRangeM v w first last r h hf hl hw⟩

/-- C3 witness: the invariants at a concrete container, before and after a
push_back, and after a successful eliminar. -/
theorem C3_invariants_witness :
    (ctorList [(1 : Nat), 2]).Inv ∧
      ((ctorList [(1 : Nat), 2]).agregarFinal 3).Inv :=
  ⟨C3_invariants.2.2.1 [1, 2],
    C3_invariants.2.2.2.1 (ctorList [1, 2]) 3 (C3_invariants.2.2.1 [1, 2])⟩

/-! ### C2: exception safety of the reallocation path -/

/-- C2: the code breaks strong exception safety on the reallocation path.
cambiarCapacidad move-constructs into the new block with an unguarded
std::move (the spec prescribes falling back to copy when the move can
throw).  Take the full container [7, 9] (capacity 2) and grow it to 4 with
an element type whose move constructor throws while constructing index 1 of
the new block: the rollback restores length, capacity and storage, but slot
0 of the old storage has already been moved from -- its value 7 is gone, so
the container is NOT exactly as it was before the call. -/
theorem C2_throwing_move_breaks_strong_safety :
    VecE.cambiarCapacidadThrow (⟨[some 7, some 9], 2⟩ : VecE Nat) 4 1 =
        .error ⟨[none, some 9], 2⟩ ∧
      (⟨[none, some 9], 2⟩ : VecE Nat) ≠ ⟨[some 7, some 9], 2⟩ :=
  ⟨rfl, by decide⟩

/-! ### C8: deduplicate is sort-then-unique -/

theorem mem_uniqueFrom [DecidableEq α] (p x : α) :
    ∀ l : List α, x ∈ uniqueFrom p l → x ∈ l
  | [] => by simp [uniqueFrom]
  | y :: ys => by
      by_cases hy : y = p
      · simp only [uniqueFrom, if_pos hy]
        intro hx
        exact List.mem_cons_of_mem y (mem_uniqueFrom p x ys hx)
      · simp only [uniqueFrom, if_neg hy]
        intro hx
        rcases List.mem_cons.mp hx with h1 | h1
        · rw [h1]; exact List.mem_cons_self y ys
        · exact List.mem_cons_of_mem y (mem_uniqueFrom y x ys h1)

theorem eq_or_mem_uniqueFrom [DecidableEq α] (x : α) :
    ∀ (l : List α) (p : α), x ∈ l → x = p ∨ x ∈ uniqueFrom p l
  | [], _, hx => absurd hx (List.not_mem_nil x)
  | y :: ys, p, hx => by
      by_cases hy : y = p
      · simp only [uniqueFrom, if_pos hy]
        rcases List.mem_cons.mp hx with h1 | h1
        · exact Or.inl (h1.trans hy)
        · exact eq_or_mem_uniqueFrom x ys p h1
      · simp only [uniqueFrom, if_neg hy]
        rcases List.mem_cons.mp hx with h1 | h1
        · refine Or.inr ?_
          rw [h1]
          exact List.mem_cons_self y _
        · rcases eq_or_mem_uniqueFrom x ys y h1 with h2 | h2
          · refine Or.inr ?_
            rw [h2]
            exact List.mem_cons_self y _
          · exact Or.inr (List.mem_cons_of_mem y h2)

theorem mem_stdUnique [DecidableEq α] (l : List α) (x : α) :
    x ∈ stdUnique l ↔ x ∈ l := by
  cases l with
  | nil => simp [stdUnique]
  | cons y ys =>
      simp only [stdUnique]
      constructor
      · intro hx
        rcases List.mem_cons.mp hx with h1 | h1
        · rw [h1]; exact List.mem_cons_self y ys
        · exact List.mem_cons_of_mem y (mem_uniqueFrom y x ys h1)
      · intro hx
        rcases List.mem_cons.mp hx with h1 | h1
        · rw [h1]; exact List.mem_cons_self y _
        · rcases eq_or_mem_uniqueFrom x ys y h1 with h2 | h2
          · rw [h2]; exact List.mem_cons_self y _
          · exact List.mem_cons_of_mem y h2

theorem chain_lt_uniqueFrom [LinearOrder α] :
    ∀ (l : List α) (p : α), List.Chain (· ≤ ·) p l →
      List.Chain (· < ·) p (uniqueFrom p l)
  | [], _, _ => List.Chain.nil
  | y :: ys, p, h => by
      rw [List.chain_cons] at h
      by_cases hy : y = p
      · simp only [uniqueFrom, if_pos hy]
        exact chain_lt_uniqueFrom ys p (hy ▸ h.2)
      · simp only [uniqueFrom, if_neg hy]
        exact List.Chain.cons (lt_of_le_of_ne h.1 (Ne.symm hy))
          (chain_lt_uniqueFrom ys y h.2)

theorem chain_lt_stdUnique [LinearOrder α] (l : List α)
    (h : List.Chain' (· ≤ ·) l) : List.Chain' (· < ·) (stdUnique l) := by
  cases l with
  | nil => simp [stdUnique]
  | cons x xs =>
      have hx : List.Chain (· ≤ ·) x xs := h
      show List.Chain (· < ·) x (uniqueFrom x xs)
      exact chain_lt_uniqueFrom xs x hx

/-- C8: deduplicate always sorts first and then collapses adjacent equal
runs, so for every container the result is sorted, duplicate-free, and has
exactly the same members as the input; in particular on [3, 1, 2, 2, 1] it
yields [1, 2, 3] (sorted unique, not insertion-order unique). -/
theorem C8_deduplicate_sorts :
    (∀ v : Vec Nat,
        sortedB (v.eliminarDuplicados).elems = true ∧
          (v.eliminarDuplicados).elems.Nodup ∧
          ∀ x : Nat, x ∈ (v.eliminarDuplicados).elems ↔ x ∈ v.elems) ∧
      (eliminarDuplicados (ctorList [3, 1, 2, 2, 1])).elems = [1, 2, 3] := by
  constructor
  · intro v
    have hsorted : List.Chain' (· ≤ ·) (v.elems.insertionSort (· ≤ ·)) :=
      List.chain'_iff_pairwise.mpr (List.sorted_insertionSort (· ≤ ·) v.elems)
    have hlt := chain_lt_stdUnique _ hsorted
    have helems : (v.eliminarDuplicados).elems =
        stdUnique (v.elems.insertionSort (· ≤ ·)) := rfl
    refine ⟨?_, ?_, ?_⟩
    · rw [helems]
      exact sortedB_of_chain _ (hlt.imp fun a b hab => le_of_lt hab)
    · rw [helems]
      have hpw : List.Pairwise (· < ·)
          (stdUnique (v.elems.insertionSort (· ≤ ·))) :=
        List.chain'_iff_pairwise.mp hlt
      exact hpw.imp fun hab => ne_of_lt hab
    · intro x
      rw [helems, mem_stdUnique, List.mem_insertionSort]
  · decide

/-! ### C10: floating-point equality versus inequality -/

/-- C10: operator!= compares with the element type's exact inequality while
operator== uses the epsilon-tolerance areEqual for floating-point elements,
so != is not the logical negation of ==: the one-element containers [1] and
[1 + eps/2], whose elements differ by eps/2 < eps, satisfy == and !=
simultaneously, for every positive machine epsilon eps. -/
theorem C10_float_eq_ne_both_true (eps : ℚ) (heps : 0 < eps) :
    eqOpF eps (ctorList [1]) (ctorList [1 + eps / 2]) = true ∧
      neOp (ctorList [(1 : ℚ)]) (ctorList [1 + eps / 2]) = true ∧
      neOp (ctorList [(1 : ℚ)]) (ctorList [1 + eps / 2]) ≠
        !(eqOpF eps (ctorList [1]) (ctorList [1 + eps / 2])) := by
  have hne : (1 : ℚ) ≠ 1 + eps / 2 := by
    intro hc
    have h0 : eps / 2 = 0 := by linarith
    linarith
  have habs : |(1 : ℚ) - (1 + eps / 2)| = eps / 2 := by
    rw [show (1 : ℚ) - (1 + eps / 2) = -(eps / 2) by ring, abs_neg,
      abs_of_pos (by positivity)]
  have heq : eqOpF eps (ctorList [1]) (ctorList [1 + eps / 2]) = true := by
    simp only [eqOpF, ctorList, tamano_mk, List.length_singleton, ne_eq,
      not_true_eq_false, if_false, List.zip_cons_cons, List.zip_nil_right,
      List.all_cons, List.all_nil, Bool.and_true, areEqualF, habs,
      decide_eq_true_eq]
    linarith
  have hneq : neOp (ctorList [(1 : ℚ)]) (ctorList [1 + eps / 2]) = true := by
    simp only [neOp, ctorList, tamano_mk, List.length_singleton, ne_eq,
      not_true_eq_false, if_false, List.zip_cons_cons, List.zip_nil_right,
      List.any_cons, List.any_nil, Bool.or_false, decide_eq_true_eq]
    exact hne
  refine ⟨heq, hneq, ?_⟩
  rw [heq, hneq]
  decide

/-- C10 witness: the pair of containers at the concrete epsilon 1. -/
theorem C10_float_eq_ne_both_true_witness :
    (0 : ℚ) < 1 ∧
      eqOpF 1 (ctorList [1]) (ctorList [1 + 1 / 2]) = true ∧
      neOp (ctorList [(1 : ℚ)]) (ctorList [1 + 1 / 2]) = true :=
  ⟨by norm_num, (C10_float_eq_ne_both_true 1 (by norm_num)).1,
    (C10_float_eq_ne_both_true 1 (by norm_num)).2.1⟩

end Vec

end CppVector
